import Mathlib

/-!
Shallow embedding of the speech-delivery analyzer of the lightpitch
repository (`src/models/audio/analyzer.py`, patterns from
`src/models/audio/patterns_ru.py`), together with theorems settling the
frozen claims about it.  Python floats are modelled as rationals, `None`
as `Option.none`, and `round(x, n)` as round-half-to-even on rationals.
-/

namespace LightPitch

/-- Python's built-in `round` to an integer: round half to even
(banker's rounding), as used by `round(x, n)` in the analyzer. -/
def pyRound (q : ℚ) : ℤ :=
  let f := ⌊q⌋
  let r := q - f
  if r < 1/2 then f
  else if r > 1/2 then f + 1
  else if f % 2 = 0 then f else f + 1

/-- Python's `round(x, n)` for `n` decimal places, on rationals. -/
def roundTo (n : ℕ) (q : ℚ) : ℚ := (pyRound (q * 10 ^ n) : ℚ) / 10 ^ n

/-- Character class of `word_count`'s token regex
`[A-Za-zА-Яа-яЁё0-9]+(?:[-'][A-Za-zА-Яа-яЁё0-9]+)?`:
ASCII letters, Cyrillic letters (with Ёё) and decimal digits. -/
def isCountChar (c : Char) : Bool :=
  (('A' ≤ c ∧ c ≤ 'Z') ∨ ('a' ≤ c ∧ c ≤ 'z') ∨ ('0' ≤ c ∧ c ≤ '9') ∨
    (0x410 ≤ c.val ∧ c.val ≤ 0x44F) ∨ c.val = 0x401 ∨ c.val = 0x451 : Prop)

/-- The apostrophe character, one of the two in-word connectors `[-']`
accepted by `word_count`. -/
def apos : Char := Char.ofNat 39

/-- Scanner for `word_count`'s regex `re.findall`: a word is a maximal
alphanumeric run optionally extended by a single `-` or `'` connector
followed by a further alphanumeric run; everything else is skipped. -/
def wcAux : List Char → ℕ
  | [] => 0
  | c :: rest =>
    if isCountChar c then
      match h : rest.dropWhile isCountChar with
      | d :: rest2 =>
        if (d = '-' || d = apos) &&
            (match rest2 with | e :: _ => isCountChar e | [] => false) then
          1 + wcAux (rest2.dropWhile isCountChar)
        else
          1 + wcAux (d :: rest2)
      | [] => 1
    else
      wcAux rest
termination_by l => l.length
decreasing_by
  · simp only [List.length_cons]
    have h1 := (List.dropWhile_sublist (l := rest) isCountChar).length_le
    have h2 := (List.dropWhile_sublist (l := rest2) isCountChar).length_le
    rw [h] at h1
    simp only [List.length_cons] at h1
    omega
  · simp only [List.length_cons]
    have h1 := (List.dropWhile_sublist (l := rest) isCountChar).length_le
    rw [h] at h1
    simp only [List.length_cons] at h1
    omega
  · simp only [List.length_cons]
    omega

/-- `word_count`: number of regex word tokens in a string. -/
def wordCount (s : String) : ℕ := wcAux s.data

/-- One emitted long pause, as the dict
`{'start': …, 'end': …, 'dur': …}` built by `long_pauses_from_segments`
(all three values rounded to 3 decimals at the construction site). -/
structure Pause where
  start : ℚ
  end_ : ℚ
  dur : ℚ
  deriving DecidableEq, Repr

/-- `long_pauses_from_segments(speech_segs, threshold_sec, total_duration)`:
spoken time is the sum of segment lengths, overall time the maximum of the
reported total duration and the last segment's end, and a pause is emitted
for each consecutive pair of segments whose gap `next.start - prev.end`
reaches the threshold. -/
def longPausesFromSegments (speechSegs : List (ℚ × ℚ)) (thresholdSec : ℚ)
    (totalDuration : ℚ) : List Pause × ℚ × ℚ :=
  let spokenTime := (speechSegs.map (fun p => p.2 - p.1)).sum
  let overallTime := max totalDuration ((speechSegs.getLast?.map (·.2)).getD 0)
  let pauses := (speechSegs.zip speechSegs.tail).filterMap (fun pq =>
    let gap := pq.2.1 - pq.1.2
    if gap ≥ thresholdSec then
      some ⟨roundTo 3 pq.1.2, roundTo 3 pq.2.1, roundTo 3 gap⟩
    else none)
  (pauses, spokenTime, overallTime)

/-- Python's `' '.join(...)`. -/
def spaceJoin : List String → String
  | [] => ""
  | [t] => t
  | t :: u :: ts => t ++ " " ++ spaceJoin (u :: ts)

/-- One transcription word with its timestamps, as the dict
`{'word': …, 'start': …, 'end': …}` produced by `transcribe_whisper`. -/
structure Word' where
  word : String
  start : ℚ
  end_ : ℚ
  deriving DecidableEq, Repr

/-- Python's `\w` character class as it applies to this analyzer's input
(ASCII letters, digits, underscore, and Cyrillic letters): the keep-set of
`re.sub(r'[^\wа-яё-]+', '', …)` less the hyphen.  The source's extra range
`а-яё` is already contained in `\w`. -/
def isWordCharPy (c : Char) : Bool :=
  (('A' ≤ c ∧ c ≤ 'Z') ∨ ('a' ≤ c ∧ c ≤ 'z') ∨ ('0' ≤ c ∧ c ≤ '9') ∨ c = '_' ∨
    (0x410 ≤ c.val ∧ c.val ≤ 0x44F) ∨ c.val = 0x401 ∨ c.val = 0x451 : Prop)

/-- Python's `str.lower()` on the Latin and Cyrillic letters this analyzer
processes. -/
def pyLower (c : Char) : Char :=
  if ('A' ≤ c ∧ c ≤ 'Z' : Prop) then Char.ofNat (c.toNat + 32)
  else if (0x410 ≤ c.val ∧ c.val ≤ 0x42F : Prop) then Char.ofNat (c.toNat + 0x20)
  else if c.val = 0x401 then Char.ofNat 0x451
  else c

/-- Token normalization of `find_patterns_with_timestamps`:
`re.sub(r'[^\wа-яё-]+', '', w['word'].lower())` — lowercase, then drop every
character that is neither a word character nor a hyphen. -/
def normalizeWord (s : String) : String :=
  ⟨(s.data.map pyLower).filter (fun c => isWordCharPy c || c = '-')⟩

/-- The normalized token list of a word list. -/
def wordsTokens (words : List Word') : List String :=
  words.map (fun w => normalizeWord w.word)

/-- `joined = ' '.join(t for t in tokens if t)`. -/
def joinedText (words : List Word') : String :=
  spaceJoin ((wordsTokens words).filter (fun t => t ≠ ""))

/-- The offset table built by `find_patterns_with_timestamps`: for each
non-empty token, the pair `(starting character offset in the joined string,
word index)`; the offset accumulator advances by `len(tok) + 1`. -/
def buildPositions : List String → ℕ → ℕ → List (ℕ × ℕ)
  | [], _, _ => []
  | t :: ts, i, acc =>
    if t = "" then buildPositions ts (i + 1) acc
    else (acc, i) :: buildPositions ts (i + 1) (acc + t.length + 1)

/-- The offset table of a word list. -/
def positionsOf (words : List Word') : List (ℕ × ℕ) :=
  buildPositions (wordsTokens words) 0 0

/-- The scanning loop of `char_to_token_idx`: walk the table in order,
remember the index of each entry whose offset is `≤` the position, and stop
at the first larger offset. -/
def ctti : List (ℕ × ℕ) → ℕ → ℕ → ℕ
  | [], _, prev => prev
  | (a, i) :: rest, p, prev => if a ≤ p then ctti rest p i else prev

/-- `char_to_token_idx(char_pos)` with its initial `prev_idx = 0`. -/
def charToTokenIdx (positions : List (ℕ × ℕ)) (p : ℕ) : ℕ :=
  ctti positions p 0

/-- The floor lookup as the spec words it: the word index recorded at the
LAST table offset that is `≤` the position (0 when no offset qualifies).
Stated from the spec for comparison with `charToTokenIdx`. -/
def floorLookupSpec (positions : List (ℕ × ℕ)) (p : ℕ) : ℕ :=
  (((positions.filter (fun q => q.1 ≤ p)).getLast?).map (·.2)).getD 0

/-- One emitted pattern occurrence
`{'start': …, 'end': …, 'text': …}` (timestamps rounded to 3 decimals). -/
structure Occurrence where
  start : ℚ
  end_ : ℚ
  text : String
  deriving DecidableEq, Repr

/-- The occurrence built for one regex match with character span
`[ms, me)` and matched text `mtext`:
`start_idx = char_to_token_idx(m.start())`,
`end_idx = min(char_to_token_idx(m.end()) + 1, len(words) - 1)`, and the
timestamps are `words[start_idx]['start']` and `words[end_idx]['end']`
(0.0 fallbacks only for an empty word list). -/
def occurrenceOfMatch (words : List Word') (positions : List (ℕ × ℕ))
    (ms me : ℕ) (mtext : String) : Occurrence :=
  let startIdx := charToTokenIdx positions ms
  let endIdx := min (charToTokenIdx positions me + 1) (words.length - 1)
  let startT := if words.isEmpty then 0 else (words.getD startIdx ⟨"", 0, 0⟩).start
  let endT := if words.isEmpty then startT else (words.getD endIdx ⟨"", 0, 0⟩).end_
  ⟨roundTo 3 startT, roundTo 3 endT, mtext⟩

/-- Word-boundary test of `\b` against an adjacent character (satisfied at
the ends of the string). -/
def boundaryOk (oc : Option Char) : Bool :=
  match oc with
  | none => true
  | some c => !isWordCharPy c

/-- `re.finditer` specialized to the catalogue patterns of the form
`\b<literal>\b` with a lowercase literal of word characters (e.g. `\bну\b`,
`\bвот\b`): leftmost, non-overlapping matches; after a match the scan
resumes at the match's end. -/
def blm (needle : List Char) : List Char → ℕ → Option Char → ℕ → List (ℕ × ℕ)
  | [], _, _, _ => []
  | c :: rest, pos, prev, skip =>
    if skip > 0 then blm needle rest (pos + 1) (some c) (skip - 1)
    else if needle.isPrefixOf (c :: rest) && boundaryOk prev &&
        boundaryOk (((c :: rest).drop needle.length).head?) then
      (pos, pos + needle.length) :: blm needle rest (pos + 1) (some c) (needle.length - 1)
    else blm needle rest (pos + 1) (some c) 0

/-- All matches of a `\b`-delimited literal pattern in a string. -/
def boundedLiteralMatches (needle hay : String) : List (ℕ × ℕ) :=
  blm needle.data hay.data 0 none 0

/-- `m.group(0)`: the literal matched text, the substring `[a, b)` of the
joined string. -/
def sliceStr (s : String) (a b : ℕ) : String :=
  ⟨(s.data.drop a).take (b - a)⟩

/-- One per-pattern result `{'pattern': …, 'count': …, 'occurrences': …}`. -/
structure PatternResult where
  pattern : String
  count : ℕ
  occurrences : List Occurrence
  deriving DecidableEq, Repr

/-- `find_patterns_with_timestamps(words, patterns)` for `\b`-literal
patterns: per pattern, count the matches in the normalized joined string and
emit one occurrence per match; patterns with no match are dropped; the
second component is the running total of counts. -/
def findPatternsLit (words : List Word') (patterns : List String) :
    List PatternResult × ℕ :=
  let positions := positionsOf words
  let joined := joinedText words
  let results := patterns.filterMap (fun pat =>
    let ms := boundedLiteralMatches pat joined
    if ms.isEmpty then none
    else some ⟨pat, ms.length,
      ms.map (fun m => occurrenceOfMatch words positions m.1 m.2 (sliceStr joined m.1 m.2))⟩)
  (results, (results.map (·.count)).sum)

/-- One coverage match
`{'unit_idx': …, 'unit': …, 'seg_idx': …, 'seg': …, 'similarity': …}`. -/
structure CovMatch where
  unit_idx : ℕ
  unit : String
  seg_idx : ℕ
  seg : String
  similarity : ℚ
  deriving DecidableEq, Repr

/-- One coverage miss `{'unit_idx': …, 'unit': …, 'max_similarity': …}`. -/
structure CovMiss where
  unit_idx : ℕ
  unit : String
  max_similarity : ℚ
  deriving DecidableEq, Repr

/-- The dict returned by `compute_coverage`. -/
structure CoverageResult where
  coverage : Option ℚ
  missing : List CovMiss
  matches_ : List CovMatch
  deriving DecidableEq, Repr

/-- Maximum of a rational list (`numpy` max over a non-empty row). -/
def listMaxQ : List ℚ → ℚ
  | [] => 0
  | [x] => x
  | x :: y :: ys => max x (listMaxQ (y :: ys))

/-- `np.argmax`: index of the FIRST occurrence of the maximum. -/
def argmaxIdx : List ℚ → ℕ
  | [] => 0
  | [_] => 0
  | x :: y :: ys => if listMaxQ (y :: ys) > x then argmaxIdx (y :: ys) + 1 else 0

/-- The dynamic per-unit threshold: units of at most `SHORT_UNIT_WORDS = 4`
tokens use `SHORT_UNIT_THRESHOLD = 0.45`, longer units the base threshold. -/
def unitThreshold (threshold : ℚ) (unit : String) : ℚ :=
  if wordCount unit ≤ 4 then 9/20 else threshold

/-- Row `i` of the unit×segment cosine-similarity matrix. -/
def simRow (sims : ℕ → ℕ → ℚ) (nSegs i : ℕ) : List ℚ :=
  (List.range nSegs).map (sims i)

/-- The loop body's `score = float(sims[i][j])` with
`j = int(np.argmax(sims[i]))`: the best similarity of unit `i` over all
segments. -/
def covScoreOf (segTexts : List String) (sims : ℕ → ℕ → ℚ) (i : ℕ) : ℚ :=
  let row := simRow sims segTexts.length i
  row.getD (argmaxIdx row) 0

/-- The loop body's classification test `score >= unit_thr`. -/
def covCondition (units segTexts : List String) (sims : ℕ → ℕ → ℚ)
    (threshold : ℚ) (i : ℕ) : Prop :=
  covScoreOf segTexts sims i ≥ unitThreshold threshold (units.getD i "")

instance (units segTexts : List String) (sims : ℕ → ℕ → ℚ) (threshold : ℚ)
    (i : ℕ) : Decidable (covCondition units segTexts sims threshold i) := by
  unfold covCondition
  infer_instance

/-- The match entry appended for a covered unit `i`. -/
def covMatchOf (units segTexts : List String) (sims : ℕ → ℕ → ℚ) (i : ℕ) :
    CovMatch :=
  let row := simRow sims segTexts.length i
  let j := argmaxIdx row
  ⟨i, units.getD i "", j, segTexts.getD j "", roundTo 3 (covScoreOf segTexts sims i)⟩

/-- The miss entry appended for an uncovered unit `i`. -/
def covMissOf (units segTexts : List String) (sims : ℕ → ℕ → ℚ) (i : ℕ) :
    CovMiss :=
  ⟨i, units.getD i "", roundTo 3 (covScoreOf segTexts sims i)⟩

/-- `compute_coverage`, embedded from the point after script splitting:
`units` is the output of `split_script_units` (the upstream
`if not script_text … return None` guard corresponds to calls with a
non-empty script), `sims` the matrix computed by the external
sentence-embedding model.  Per unit, the best-matching segment's score is
compared against the dynamic threshold and the unit is appended to exactly
one of `matches` / `missing`; `coverage` is
`round(100.0 * (len(units) - len(missing)) / len(units), 1)`. -/
def computeCoverage (units segTexts : List String) (sims : ℕ → ℕ → ℚ)
    (threshold : ℚ) : Option CoverageResult :=
  if segTexts.isEmpty then none
  else if units.isEmpty then some ⟨none, [], []⟩
  else
    let n := units.length
    let matches_ := (List.range n).filterMap (fun i =>
      if covCondition units segTexts sims threshold i then
        some (covMatchOf units segTexts sims i)
      else none)
    let missing := (List.range n).filterMap (fun i =>
      if covCondition units segTexts sims threshold i then none
      else some (covMissOf units segTexts sims i))
    some ⟨some (roundTo 1 (100 * ((n : ℚ) - missing.length) / n)), missing, matches_⟩

/-- One transcription segment as consumed by `group_segment_texts`. -/
structure Seg where
  start : ℚ
  end_ : ℚ
  text : String
  deriving DecidableEq, Repr

/-- Python's `str.strip()`: drop leading and trailing whitespace. -/
def pyStrip (s : String) : String :=
  ⟨((s.data.dropWhile Char.isWhitespace).reverse.dropWhile Char.isWhitespace).reverse⟩

/-- The loop of `group_segment_texts` with state
`(out, buf_text, window_start)`.  `window_start` is `None` only before the
first segment; a segment joins the current buffer when the window stays
within `max_seconds` AND the candidate text within `max_words`, otherwise
the buffer (when non-empty) is flushed and a new one starts at the segment.
The write-only `window_end` of the source is omitted. -/
def groupLoop (maxSeconds : ℚ) (maxWords : ℕ) :
    List Seg → List String → List String → Option ℚ → List String
  | [], out, buf, _ => out ++ (if buf.isEmpty then [] else [spaceJoin buf])
  | s :: rest, out, buf, windowStart =>
    let ws := windowStart.getD s.start
    let candidate := spaceJoin (buf ++ [pyStrip s.text])
    if (s.end_ - ws ≤ maxSeconds ∧ wordCount candidate ≤ maxWords : Prop) then
      groupLoop maxSeconds maxWords rest out (buf ++ [pyStrip s.text]) (some ws)
    else
      groupLoop maxSeconds maxWords rest
        (out ++ (if buf.isEmpty then [] else [spaceJoin buf]))
        [pyStrip s.text] (some s.start)

/-- `group_segment_texts(segments, max_seconds, max_words)`. -/
def groupSegmentTexts (segments : List Seg) (maxSeconds : ℚ) (maxWords : ℕ) :
    List String :=
  groupLoop maxSeconds maxWords segments [] [] none

/-- The words-per-minute computation of `analyze`:
`round((n_words / max(t, 1e-6)) * 60.0, 1) if t > 0 else 0.0`,
used for both `spoken_wpm` (with spoken time) and `overall_wpm`
(with overall time). -/
def wpmOf (nWords : ℕ) (t : ℚ) : ℚ :=
  if t > 0 then roundTo 1 ((nWords / max t (1/1000000)) * 60) else 0

/-- The `mic_loudness` block of `analyze_mic_quality` (advice/label text
fields omitted): stored values are rounded, the status is decided on the
unrounded values. -/
structure MicLoudItem where
  speech_rms_dbfs : Option ℚ
  speech_peak_dbfs : Option ℚ
  clipping_ratio : ℚ
  status : Option String
  substatus : Option String
  deriving DecidableEq, Repr

/-- The `mic_noise` block of `analyze_mic_quality` (advice/label text
fields omitted). -/
structure MicNoiseItem where
  snr_db : Option ℚ
  speech_rms_dbfs : Option ℚ
  noise_rms_dbfs : Option ℚ
  status : Option String
  substatus : Option String
  deriving DecidableEq, Repr

/-- The loudness status cascade of `analyze_mic_quality` (source lines
272–290), as a function of the measured speech RMS/peak (dBFS) and the
clipping ratio: `None` without speech; `error` on clipping
(`clip_ratio >= 0.005 or peak > -1.0`); `warning` for RMS `> -12`;
`good` on `[-23, -14]`; `warning` on `[-28, -23)`; `error` otherwise. -/
def micLoudStatus (speechRms peak : Option ℚ) (clipRatio : ℚ) :
    Option String × Option String :=
  match speechRms with
  | none => (none, none)
  | some rms =>
    if (clipRatio ≥ 1/200 : Prop) ∨
        (match peak with | some p => decide (p > -1) | none => false) = true then
      (some "error", some "clipping")
    else if rms > -12 then (some "warning", some "too_loud")
    else if (-23 ≤ rms ∧ rms ≤ -14 : Prop) then (some "good", some "ok")
    else if (-28 ≤ rms ∧ rms < -23 : Prop) then (some "warning", some "too_quiet")
    else (some "error", some "very_quiet")

/-- The value-level core of `analyze_mic_quality`: given speech RMS, speech
peak, clipping ratio and noise RMS it builds the two checklist blocks,
computing `snr_db = speech_rms - noise_rms` when both exist and rounding
the stored copies (RMS/peak/SNR to 1 decimal, clipping ratio to 4). -/
def mkMicQuality (speechRms peak : Option ℚ) (clipRatio : ℚ)
    (noiseRms : Option ℚ) : MicLoudItem × MicNoiseItem :=
  let ls := micLoudStatus speechRms peak clipRatio
  let snr : Option ℚ :=
    match speechRms, noiseRms with
    | some s, some n => some (s - n)
    | _, _ => none
  let ns : Option String × Option String :=
    match snr with
    | none => (none, none)
    | some v =>
      if v ≥ 20 then (some "good", some "clean")
      else if (12 ≤ v ∧ v < 20 : Prop) then (some "warning", some "moderate_noise")
      else (some "error", some "noisy")
  (⟨speechRms.map (roundTo 1), peak.map (roundTo 1), roundTo 4 clipRatio,
      ls.1, ls.2⟩,
   ⟨snr.map (roundTo 1), speechRms.map (roundTo 1), noiseRms.map (roundTo 1),
      ns.1, ns.2⟩)

/-- `extract_segments_signal(x, sr, segments)`: concatenation of the sample
slices `x[max(0, round(s*sr)) : min(n, round(e*sr))]`, keeping only slices
with a positive extent. -/
def extractSegmentsSignal (x : List ℚ) (sr : ℕ) (segments : List (ℚ × ℚ)) :
    List ℚ :=
  let n := x.length
  (segments.map (fun se =>
    let i : ℤ := max 0 (pyRound (se.1 * sr))
    let j : ℤ := min (n : ℤ) (pyRound (se.2 * sr))
    if j > i then (x.drop i.toNat).take (j - i).toNat else [])).flatten

/-- `invert_segments(total_len, sr, segments)`: the complement of the
(speech) segments inside `[0, total_len/sr]`, built left to right after
sorting by start, then filtered to gaps of at least 0.15 s. -/
def invertSegments (totalLen sr : ℕ) (segments : List (ℚ × ℚ)) :
    List (ℚ × ℚ) :=
  let totalSec : ℚ := totalLen / (sr : ℚ)
  let segs := segments.mergeSort (fun a b => decide (a.1 ≤ b.1))
  let step := segs.foldl (fun (st : List (ℚ × ℚ) × ℚ) se =>
    let s := max 0 se.1
    let e := max s se.2
    let inv := if s > st.2 then st.1 ++ [(st.2, min s totalSec)] else st.1
    (inv, max st.2 e)) ([], 0)
  let inv := if step.2 < totalSec then step.1 ++ [(step.2, totalSec)] else step.1
  inv.filter (fun se => se.2 - se.1 ≥ 3/20)

/-- `float(np.mean(np.abs(speech_sig) >= 0.999)) if speech_sig.size else
0.0`: the fraction of samples at or above 0.999 in absolute value, with the
0.0 default on an empty signal. -/
def clipRatioOf (x : List ℚ) : ℚ :=
  if x.isEmpty then 0
  else ((x.filter (fun v => |v| ≥ 999/1000)).length : ℚ) / x.length

/-- `rms_dbfs(x)`: `None` on an empty signal, otherwise
`20 * log10(sqrt(mean(x**2)) + 1e-12)`. -/
noncomputable def rmsDbfs (x : List ℚ) : Option ℝ :=
  if x.isEmpty then none
  else some (20 * Real.logb 10
    (Real.sqrt ((((x.map (fun v => v * v)).sum : ℚ) : ℝ) / x.length) +
      1/1000000000000))

/-- `peak_dbfs(x)`: `None` on an empty signal, otherwise
`20 * log10(max(abs(x)) + 1e-12)`. -/
noncomputable def peakDbfs (x : List ℚ) : Option ℝ :=
  if x.isEmpty then none
  else some (20 * Real.logb 10
    ((listMaxQ (x.map (fun v => |v|)) : ℝ) + 1/1000000000000))

/-- The five numeric mic-quality metrics of `analyze_mic_quality`
(`MicQualityMetrics` of the spec).  `clipping_ratio` is stored as
`round(clip_ratio, 4)` and is never `None` in the source; display rounding
of the dB-valued fields is omitted here (it preserves nullness). -/
structure MicMetrics where
  speech_rms_dbfs : Option ℝ
  speech_peak_dbfs : Option ℝ
  clipping_ratio : Option ℚ
  noise_rms_dbfs : Option ℝ
  snr_db : Option ℝ

/-- The metric-producing part of `analyze_mic_quality(audio_path,
speech_segs)`, from the decoded waveform on: speech signal from the speech
segments, noise signal from the inverted segments, and the five metrics. -/
noncomputable def micMetrics (x : List ℚ) (sr : ℕ)
    (speechSegs : List (ℚ × ℚ)) : MicMetrics :=
  let speechSig := extractSegmentsSignal x sr speechSegs
  let noiseSig := extractSegmentsSignal x sr (invertSegments x.length sr speechSegs)
  let srms := rmsDbfs speechSig
  let nrms := rmsDbfs noiseSig
  ⟨srms, peakDbfs speechSig, some (roundTo 4 (clipRatioOf speechSig)), nrms,
    match srms, nrms with
    | some a, some b => some (a - b)
    | _, _ => none⟩

/-- The `pace` checklist item (label/advice omitted). -/
structure PaceItem where
  value : ℚ
  status : String
  substatus : String
  deriving DecidableEq, Repr

/-- The `pauses` checklist item. -/
structure PausesItem where
  count : ℕ
  per_min : ℚ
  max_sec : ℚ
  status : String
  substatus : String
  deriving DecidableEq, Repr

/-- The `fillers` / `hedges` checklist items. -/
structure FreqItem where
  count_total : ℕ
  per_100_words : ℚ
  status : String
  substatus : String
  deriving DecidableEq, Repr

/-- The `coverage` checklist item. -/
structure CoverageItem where
  value : Option ℚ
  missing_count : Option ℕ
  status : Option String
  substatus : Option String
  deriving DecidableEq, Repr

/-- The `time_use` checklist item. -/
structure TimeItem where
  planned_sec : Option ℚ
  used_sec : Option ℚ
  diff_sec : Option ℚ
  ratio : Option ℚ
  status : String
  substatus : String
  deriving DecidableEq, Repr

/-- The `spoken_ratio` checklist item. -/
structure RatioItem where
  value : ℚ
  status : String
  substatus : String
  deriving DecidableEq, Repr

/-- The checklist dict returned by `build_audio_checklist`. -/
structure AudioChecklist where
  pace : PaceItem
  pauses : PausesItem
  fillers : FreqItem
  hedges : FreqItem
  coverage : CoverageItem
  time_use : TimeItem
  spoken_ratio : RatioItem
  mic_loudness : MicLoudItem
  mic_noise : MicNoiseItem
  deriving DecidableEq, Repr

/-- `build_audio_checklist`: status cascades are decided on the unrounded
quantities; the stored numeric copies are rounded
(pace to 1 decimal, pauses/fillers/hedges/time to 2, ratios to 3). -/
def buildAudioChecklist (wpmSpoken : ℚ) (longPauses : List Pause)
    (durationTotal durationSpoken : ℚ)
    (wordsTotal fillerCountTotal hedgeCountTotal : ℕ)
    (coverage : Option CoverageResult)
    (plannedDurationSec speechWindowSec : ℚ)
    (micQuality : MicLoudItem × MicNoiseItem) : AudioChecklist :=
  let pace := wpmSpoken
  let paceSt : String × String :=
    if (110 ≤ pace ∧ pace ≤ 140 : Prop) then ("good", "ok")
    else if (90 ≤ pace ∧ pace < 110 : Prop) then ("warning", "too_slow")
    else if (140 < pace ∧ pace ≤ 160 : Prop) then ("warning", "too_fast")
    else if pace < 90 then ("error", "too_slow")
    else ("error", "too_fast")
  let perMin : ℚ :=
    if durationTotal > 0 then (longPauses.length : ℚ) / (durationTotal / 60) else 0
  let maxPause := listMaxQ (longPauses.map (·.dur))
  let pausesSt : String × String :=
    if (perMin ≤ 1/2 ∧ maxPause ≤ 3 : Prop) then ("good", "ok")
    else if (perMin > 3/2 ∧ maxPause > 4 : Prop) then ("error", "many_and_long")
    else if perMin > 3/2 then ("error", "too_many")
    else if maxPause > 4 then ("error", "too_long")
    else if ((1/2 < perMin ∧ perMin ≤ 3/2) ∧ (3 < maxPause ∧ maxPause ≤ 4) : Prop) then
      ("warning", "many_and_long")
    else if (1/2 < perMin ∧ perMin ≤ 3/2 : Prop) then ("warning", "too_many")
    else if (3 < maxPause ∧ maxPause ≤ 4 : Prop) then ("warning", "too_long")
    else ("good", "ok")
  let fillersPer100 : ℚ := ((fillerCountTotal : ℚ) / max (wordsTotal : ℚ) 1) * 100
  let fillersSt : String × String :=
    if fillersPer100 ≤ 1 then ("good", "low")
    else if fillersPer100 ≤ 3 then ("warning", "medium")
    else ("error", "high")
  let hedgesPer100 : ℚ := ((hedgeCountTotal : ℚ) / max (wordsTotal : ℚ) 1) * 100
  let hedgesSt : String × String :=
    if hedgesPer100 ≤ 1/2 then ("good", "low")
    else if hedgesPer100 ≤ 3/2 then ("warning", "medium")
    else ("error", "high")
  let covItem : CoverageItem :=
    match coverage with
    | none => ⟨none, none, none, none⟩
    | some c =>
      match c.coverage with
      | none => ⟨none, none, none, none⟩
      | some cv =>
        if cv ≥ 90 then ⟨some cv, some c.missing.length, some "good", some "ok"⟩
        else if cv ≥ 75 then
          ⟨some cv, some c.missing.length, some "warning", some "partial"⟩
        else ⟨some cv, some c.missing.length, some "error", some "low"⟩
  let timeItem : TimeItem :=
    if (plannedDurationSec ≠ 0 ∧ plannedDurationSec > 0 ∧ speechWindowSec > 0 : Prop) then
      let ratio := speechWindowSec / plannedDurationSec
      let diff := speechWindowSec - plannedDurationSec
      let st : String × String :=
        if (19/20 ≤ ratio ∧ ratio ≤ 21/20 : Prop) then ("good", "on_time")
        else if ((9/10 ≤ ratio ∧ ratio < 19/20) ∨ (21/20 < ratio ∧ ratio ≤ 11/10) : Prop) then
          ("warning", if ratio < 1 then "under_time" else "over_time")
        else if ratio < 9/10 then ("error", "under_time")
        else ("error", "over_time")
      ⟨some (roundTo 2 plannedDurationSec), some (roundTo 2 speechWindowSec),
        some (roundTo 2 diff), some (roundTo 3 ratio), st.1, st.2⟩
    else
      ⟨(if plannedDurationSec = 0 then none else some (roundTo 2 plannedDurationSec)),
        (if speechWindowSec = 0 then none else some (roundTo 2 speechWindowSec)),
        none, none, "na", "na"⟩
  let spokenRatio : ℚ :=
    if durationTotal ≠ 0 then durationSpoken / max durationTotal (1/1000000) else 0
  let ratioSt : String × String :=
    if (7/10 ≤ spokenRatio ∧ spokenRatio ≤ 9/10 : Prop) then ("good", "ok")
    else if (6/10 ≤ spokenRatio ∧ spokenRatio < 7/10 : Prop) then ("warning", "too_low")
    else if (9/10 < spokenRatio ∧ spokenRatio ≤ 19/20 : Prop) then ("warning", "too_high")
    else if spokenRatio < 6/10 then ("error", "too_low")
    else ("error", "too_high")
  { pace := ⟨roundTo 1 pace, paceSt.1, paceSt.2⟩
    pauses := ⟨longPauses.length, roundTo 2 perMin, roundTo 2 maxPause,
      pausesSt.1, pausesSt.2⟩
    fillers := ⟨fillerCountTotal, roundTo 2 fillersPer100, fillersSt.1, fillersSt.2⟩
    hedges := ⟨hedgeCountTotal, roundTo 2 hedgesPer100, hedgesSt.1, hedgesSt.2⟩
    coverage := covItem
    time_use := timeItem
    spoken_ratio := ⟨roundTo 3 spokenRatio, ratioSt.1, ratioSt.2⟩
    mic_loudness := micQuality.1
    mic_noise := micQuality.2 }

/-- `calculate_pace_score` of `convert_to_frontend_format`. -/
def calculatePaceScore (v : ℚ) : ℚ :=
  if (110 ≤ v ∧ v ≤ 140 : Prop) then 1
  else if ((90 ≤ v ∧ v < 110) ∨ (140 < v ∧ v ≤ 160) : Prop) then 3/4
  else 2/5

/-- `calculate_fillers_score`. -/
def calculateFillersScore (f : ℚ) : ℚ :=
  if f ≤ 1 then 1 else if f ≤ 3 then 3/4 else 2/5

/-- `calculate_hedges_score`. -/
def calculateHedgesScore (h : ℚ) : ℚ :=
  if h ≤ 1/2 then 1 else if h ≤ 3/2 then 3/4 else 2/5

/-- `calculate_pauses_score` (the `count` argument is unused in the
source too). -/
def calculatePausesScore (count : ℕ) (perMin maxSec : ℚ) : ℚ :=
  if (perMin ≤ 1/2 ∧ maxSec ≤ 3 : Prop) then 1
  else if (perMin > 3/2 ∨ maxSec > 4 : Prop) then 2/5
  else 3/4

/-- `calculate_coverage_score`. -/
def calculateCoverageScore : Option ℚ → Option ℚ
  | none => none
  | some cv => some (if cv ≥ 90 then 1 else if cv ≥ 75 then 3/4 else 2/5)

/-- `calculate_spoken_ratio_score`. -/
def calculateSpokenRatioScore (r : ℚ) : ℚ :=
  if (7/10 ≤ r ∧ r ≤ 9/10 : Prop) then 1
  else if ((6/10 ≤ r ∧ r < 7/10) ∨ (9/10 < r ∧ r ≤ 19/20) : Prop) then 3/4
  else 2/5

/-- `calculate_timing_score`. -/
def calculateTimingScore : Option ℚ → Option ℚ
  | none => none
  | some r =>
    some (if (19/20 ≤ r ∧ r ≤ 21/20 : Prop) then 1
      else if ((9/10 ≤ r ∧ r < 19/20) ∨ (21/20 < r ∧ r ≤ 11/10) : Prop) then 3/4
      else 2/5)

/-- `calculate_mic_score`: re-derives a loudness score from the stored
(rounded) RMS and a noise score from the stored SNR, then averages the
non-`None` ones. -/
def calculateMicScore (rms snr : Option ℚ) : Option ℚ :=
  let ls := rms.map (fun v =>
    if (-23 ≤ v ∧ v ≤ -14 : Prop) then (1 : ℚ)
    else if ((-28 ≤ v ∧ v < -23) ∨ (-14 < v ∧ v ≤ -12) : Prop) then 3/4
    else 2/5)
  let ns := snr.map (fun v =>
    if v ≥ 20 then (1 : ℚ) else if (12 ≤ v ∧ v < 20 : Prop) then 3/4 else 2/5)
  let scores := [ls, ns].filterMap id
  if scores.isEmpty then none else some (scores.sum / scores.length)

/-- The `value` of the frontend group `Речь и артикуляция`:
`round((pace_score + fillers_score + hedges_score) / 3, 2)`, scores
recomputed from the stored checklist values. -/
def frontendSpeechValue (c : AudioChecklist) : ℚ :=
  roundTo 2 ((calculatePaceScore c.pace.value +
    calculateFillersScore c.fillers.per_100_words +
    calculateHedgesScore c.hedges.per_100_words) / 3)

/-- The `value` of the frontend group `Подача и презентация`: the mean of
the pauses/coverage/spoken-ratio scores that exist (0.6 default when none
does), rounded to 2 decimals. -/
def frontendDeliveryValue (c : AudioChecklist) : ℚ :=
  let ps := calculatePausesScore c.pauses.count c.pauses.per_min c.pauses.max_sec
  let cs := calculateCoverageScore c.coverage.value
  let rs := calculateSpokenRatioScore c.spoken_ratio.value
  let scores := [some ps, cs, some rs].filterMap id
  roundTo 2 (if scores.isEmpty then 3/5 else scores.sum / scores.length)

/-- The `value` of the frontend group `Технические аспекты`: the mean of
the composite mic score and the timing score that exist (0.6 default when
none does), rounded to 2 decimals. -/
def frontendTechnicalValue (c : AudioChecklist) : ℚ :=
  let ms := calculateMicScore c.mic_loudness.speech_rms_dbfs c.mic_noise.snr_db
  let ts := calculateTimingScore c.time_use.ratio
  let scores := [ms, ts].filterMap id
  roundTo 2 (if scores.isEmpty then 3/5 else scores.sum / scores.length)

/-- The status-to-score map stated by the spec for the presentation
formatter: good ↦ 1.0, warning ↦ 0.75, error ↦ 0.40.  Stated from the spec
for comparison with the formatter's recomputed scores. -/
def specStatusScore (s : String) : ℚ :=
  if s = "good" then 1 else if s = "warning" then 3/4
  else if s = "error" then 2/5 else 0

/-- A concrete detailed report: 120 wpm, no long pauses, 300 s total /
240 s spoken, 1000 words with 5 fillers and 2 hedges, no script, planned
and used window both 100 s, and a clipping recording (speech RMS −20 dBFS,
peak 0 dBFS, clipping ratio 1 %, noise RMS −45 dBFS). -/
def clippingChecklist : AudioChecklist :=
  buildAudioChecklist 120 [] 300 240 1000 5 2 none 100 100
    (mkMicQuality (some (-20)) (some 0) (1/100) (some (-45)))

theorem pyRound_le (q : ℚ) : (pyRound q : ℚ) ≤ q + 1/2 := by
  have h1 : (⌊q⌋ : ℚ) ≤ q := Int.floor_le q
  simp only [pyRound]
  split_ifs with ha hb hc
  · linarith
  · push_cast
    linarith
  · have hr : q - ⌊q⌋ = 1/2 := le_antisymm (not_lt.mp hb) (not_lt.mp ha)
    linarith
  · have hr : q - ⌊q⌋ = 1/2 := le_antisymm (not_lt.mp hb) (not_lt.mp ha)
    push_cast
    linarith

theorem le_pyRound (q : ℚ) : q - 1/2 ≤ (pyRound q : ℚ) := by
  have h1 : (⌊q⌋ : ℚ) ≤ q := Int.floor_le q
  have h2 : q < ⌊q⌋ + 1 := Int.lt_floor_add_one q
  simp only [pyRound]
  split_ifs with ha hb hc
  · linarith
  · push_cast
    linarith
  · have hr : q - ⌊q⌋ = 1/2 := le_antisymm (not_lt.mp hb) (not_lt.mp ha)
    linarith
  · have hr : q - ⌊q⌋ = 1/2 := le_antisymm (not_lt.mp hb) (not_lt.mp ha)
    push_cast
    linarith

theorem pyRound_mono {x y : ℚ} (h : x ≤ y) : pyRound x ≤ pyRound y := by
  rcases eq_or_lt_of_le h with rfl | hlt
  · exact le_refl _
  · have h1 := pyRound_le x
    have h2 := le_pyRound y
    have h3 : (pyRound x : ℚ) < (pyRound y : ℚ) + 1 := by linarith
    have h4 : pyRound x < pyRound y + 1 := by exact_mod_cast h3
    omega

theorem pyRound_nonneg {q : ℚ} (h : 0 ≤ q) : 0 ≤ pyRound q := by
  have h1 := le_pyRound q
  have h2 : (-1 : ℚ) < (pyRound q : ℚ) := by linarith
  have h3 : (-1 : ℤ) < pyRound q := by exact_mod_cast h2
  omega

theorem roundTo_mono (n : ℕ) {x y : ℚ} (h : x ≤ y) : roundTo n x ≤ roundTo n y := by
  simp only [roundTo]
  have hp : (0 : ℚ) < 10 ^ n := by positivity
  have h1 : pyRound (x * 10 ^ n) ≤ pyRound (y * 10 ^ n) :=
    pyRound_mono (by nlinarith)
  have h2 : ((pyRound (x * 10 ^ n) : ℤ) : ℚ) ≤ ((pyRound (y * 10 ^ n) : ℤ) : ℚ) := by
    exact_mod_cast h1
  rw [div_le_div_iff hp hp]
  nlinarith

theorem roundTo_nonneg (n : ℕ) {q : ℚ} (h : 0 ≤ q) : 0 ≤ roundTo n q := by
  simp only [roundTo]
  have hp : (0 : ℚ) < 10 ^ n := by positivity
  have h1 : 0 ≤ pyRound (q * 10 ^ n) := pyRound_nonneg (by positivity)
  have h2 : (0 : ℚ) ≤ (pyRound (q * 10 ^ n) : ℚ) := by exact_mod_cast h1
  positivity

theorem le_roundTo (n : ℕ) (q : ℚ) : q - 1 / (2 * 10 ^ n) ≤ roundTo n q := by
  simp only [roundTo]
  have hp : (0 : ℚ) < 10 ^ n := by positivity
  have h1 := le_pyRound (q * 10 ^ n)
  have expand : (q - 1 / (2 * 10 ^ n)) * 10 ^ n = q * 10 ^ n - 1/2 := by
    field_simp
    ring
  rw [le_div_iff hp, expand]
  exact h1

/-- C8: for every word count and (spoken or overall) time, the computed
rate is a well-defined rational that is nonnegative, the divisor
`max(t, 1e-6)` is strictly positive (so the computation never divides by
zero), and the rate is exactly 0 when the time is 0. -/
theorem wpm_rates_safe (n : ℕ) (t : ℚ) :
    0 ≤ wpmOf n t ∧ (t = 0 → wpmOf n t = 0) ∧ 0 < max t (1/1000000) := by
  refine ⟨?_, ?_, lt_of_lt_of_le (by norm_num) (le_max_right t (1/1000000))⟩
  · simp only [wpmOf]
    split_ifs with h
    · apply roundTo_nonneg
      have hd : (0 : ℚ) < max t (1/1000000) :=
        lt_of_lt_of_le (by norm_num) (le_max_right t (1/1000000))
      positivity
    · exact le_refl 0
  · intro ht
    simp only [wpmOf, ht]
    norm_num

theorem wpm_rates_safe_witness : wpmOf 3 0 = 0 := (wpm_rates_safe 3 0).2.1 rfl

/-- C2: code bug witness — at speech RMS −13 dBFS with no clipping
(clipping ratio 0, peak −3 dBFS) the mic-loudness cascade grades `error`
with substatus `very_quiet`, although −13 ≥ −28 and the signal does not
clip; the claim (and the frontend scorer `calculate_mic_score` of the same
file, which scores RMS in (−14, −12] as 0.75) says a non-clipping RMS ≥ −28
must never be graded `error`. -/
theorem mic_loudness_gap_graded_error :
    micLoudStatus (some (-13)) (some (-3)) 0 = (some "error", some "very_quiet") ∧
    ¬((0 : ℚ) ≥ 1/200) ∧ ¬((-3 : ℚ) > -1) ∧ ((-28 : ℚ) ≤ -13) ∧
    calculateMicScore (some (-13)) none = some (3/4) := by
  refine ⟨?_, by norm_num, by norm_num, by norm_num, ?_⟩
  · simp only [micLoudStatus]
    norm_num
  · norm_num [calculateMicScore, List.filterMap_cons, List.filterMap_nil]

/-- C7 (amended): the dB-valued mic-quality metrics are null as their
source signals are empty — `speech_rms_dbfs` and `speech_peak_dbfs` are
`None` when no samples fall inside the speech segments, and
`noise_rms_dbfs` and `snr_db` are `None` when the non-speech complement
(gaps under 0.15 s excluded) holds no samples; `clipping_ratio`, however,
is never `None` (the source defaults it to 0.0 on an empty speech
signal). -/
theorem mic_metrics_null_on_empty_signal (x : List ℚ) (sr : ℕ)
    (segs : List (ℚ × ℚ)) :
    (extractSegmentsSignal x sr segs = [] →
      (micMetrics x sr segs).speech_rms_dbfs = none ∧
      (micMetrics x sr segs).speech_peak_dbfs = none ∧
      (micMetrics x sr segs).clipping_ratio = some 0) ∧
    (extractSegmentsSignal x sr (invertSegments x.length sr segs) = [] →
      (micMetrics x sr segs).noise_rms_dbfs = none ∧
      (micMetrics x sr segs).snr_db = none) := by
  constructor
  · intro h
    refine ⟨?_, ?_, ?_⟩
    · simp [micMetrics, h, rmsDbfs]
    · simp [micMetrics, h, peakDbfs]
    · simp only [micMetrics, h, clipRatioOf, List.isEmpty_nil, if_true]
      norm_num [roundTo, pyRound]
  · intro h
    constructor
    · simp [micMetrics, h, rmsDbfs]
    · simp only [micMetrics, h]
      rcases hs : rmsDbfs (extractSegmentsSignal x sr segs) with _ | v
      · simp [rmsDbfs, hs]
      · simp [rmsDbfs, hs]

theorem mic_metrics_null_on_empty_signal_witness :
    (micMetrics [1/2] 16000 []).speech_rms_dbfs = none ∧
    (micMetrics [1/2] 16000 []).speech_peak_dbfs = none ∧
    (micMetrics [1/2] 16000 []).clipping_ratio = some 0 :=
  (mic_metrics_null_on_empty_signal [1/2] 16000 []).1 rfl

/-- C7 (counterexample): on a one-sample waveform with no speech segments
the speech signal is empty, yet the emitted `clipping_ratio` is `0.0`, not
null — refuting the claim that every listed metric field is null when its
source signal is empty. -/
theorem clipping_ratio_never_null :
    extractSegmentsSignal [1/2] 16000 [] = [] ∧
    (micMetrics [1/2] 16000 []).clipping_ratio = some 0 ∧
    some (0 : ℚ) ≠ (none : Option ℚ) := by
  refine ⟨rfl, ?_, by simp⟩
  simp only [micMetrics, extractSegmentsSignal, List.map_nil, List.flatten_nil,
    clipRatioOf, List.isEmpty_nil, if_true]
  norm_num [roundTo, pyRound]

theorem spoken_sum_le_last_end :
    ∀ (rest : List (ℚ × ℚ)) (p : ℚ × ℚ),
      (∀ q ∈ p :: rest, q.1 ≤ q.2) →
      List.Chain' (fun a b => a.2 ≤ b.1) (p :: rest) →
      ((p :: rest).map (fun q => q.2 - q.1)).sum ≤
        (((p :: rest).getLast?.map (·.2)).getD 0) - p.1
  | [], p, hb, _ => by
    simp only [List.map_cons, List.map_nil, List.sum_cons, List.sum_nil,
      List.getLast?_singleton, Option.map_some', Option.getD_some]
    linarith
  | q :: t, p, hb, hc => by
    have hchain := (List.chain'_cons.mp hc)
    have ih := spoken_sum_le_last_end t q (fun r hr => hb r (List.mem_cons_of_mem p hr))
      hchain.2
    simp only [List.map_cons, List.sum_cons] at ih ⊢
    rw [List.getLast?_cons_cons]
    have hpq : p.2 ≤ q.1 := hchain.1
    have hp : p.1 ≤ p.2 := hb p (List.mem_cons_self p _)
    linarith

/-- C9: for sorted, non-overlapping speech segments with nonnegative
bounds and a nonnegative reported total duration, the report's figures
satisfy `duration_total ≥ duration_spoken ≥ 0`: the spoken time (sum of
segment lengths) is nonnegative and bounded by the overall time
(`max(reported duration, last segment end)`). -/
theorem duration_total_ge_spoken (segs : List (ℚ × ℚ)) (thr total : ℚ)
    (hb : ∀ p ∈ segs, 0 ≤ p.1 ∧ p.1 ≤ p.2)
    (hc : List.Chain' (fun a b => a.2 ≤ b.1) segs)
    (ht : 0 ≤ total) :
    0 ≤ (longPausesFromSegments segs thr total).2.1 ∧
    (longPausesFromSegments segs thr total).2.1 ≤
      (longPausesFromSegments segs thr total).2.2 := by
  constructor
  · simp only [longPausesFromSegments]
    apply List.sum_nonneg
    intro v hv
    rcases List.mem_map.mp hv with ⟨q, hq, rfl⟩
    have := (hb q hq).2
    linarith
  · simp only [longPausesFromSegments]
    match segs, hb, hc with
    | [], _, _ =>
      simp only [List.map_nil, List.sum_nil, List.getLast?_nil, Option.map_none,
        Option.getD_none]
      exact le_max_of_le_right (le_refl 0)
    | p :: rest, hb, hc =>
      have h1 := spoken_sum_le_last_end rest p (fun q hq => (hb q hq).2) hc
      have h2 : 0 ≤ p.1 := (hb p (List.mem_cons_self p _)).1
      calc ((p :: rest).map (fun q => q.2 - q.1)).sum
          ≤ (((p :: rest).getLast?.map (·.2)).getD 0) - p.1 := h1
        _ ≤ (((p :: rest).getLast?.map (·.2)).getD 0) := by linarith
        _ ≤ max total (((p :: rest).getLast?.map (·.2)).getD 0) := le_max_right _ _

theorem duration_total_ge_spoken_witness :
    0 ≤ (longPausesFromSegments [((0 : ℚ), (1 : ℚ)), (2, 3)] 4 5).2.1 ∧
    (longPausesFromSegments [((0 : ℚ), (1 : ℚ)), (2, 3)] 4 5).2.1 ≤
      (longPausesFromSegments [((0 : ℚ), (1 : ℚ)), (2, 3)] 4 5).2.2 :=
  duration_total_ge_spoken [((0 : ℚ), (1 : ℚ)), (2, 3)] 4 5
    (by intro p hp; simp only [List.mem_cons, List.mem_singleton] at hp
        rcases hp with rfl | rfl | h
        · norm_num
        · norm_num
        · exact absurd h (List.not_mem_nil p))
    (by simp only [List.chain'_cons, List.chain'_singleton, and_true]; norm_num)
    (by norm_num)

theorem filterMap_ite_length {α β : Type} (l : List α) (c : α → Prop)
    [DecidablePred c] (g : α → β) :
    (l.filterMap (fun a => if c a then some (g a) else none)).length =
      (l.filter (fun a => decide (c a))).length := by
  induction l with
  | nil => rfl
  | cons a t ih =>
    by_cases h : c a
    · simp [List.filterMap_cons, List.filter_cons, h, ih]
    · simp [List.filterMap_cons, List.filter_cons, h, ih]

theorem segs_start_le_end (segs : List (ℚ × ℚ))
    (hb : ∀ p ∈ segs, p.1 ≤ p.2)
    (hc : List.Chain' (fun a b => a.2 ≤ b.1) segs) :
    ∀ (k m : ℕ) (hk : k < segs.length) (hm : m < segs.length), k ≤ m →
      (segs.get ⟨k, hk⟩).1 ≤ (segs.get ⟨m, hm⟩).2 := by
  intro k m hk hm hkm
  induction m with
  | zero =>
    have hk0 : k = 0 := Nat.le_zero.mp hkm
    subst hk0
    exact hb _ (List.get_mem _ _ _)
  | succ m ih =>
    rcases eq_or_lt_of_le hkm with rfl | hlt
    · exact hb _ (List.get_mem _ _ _)
    · have hm' : m < segs.length := by omega
      have h1 := ih hm' (Nat.le_of_lt_succ hlt)
      have h2 : (segs.get ⟨m, hm'⟩).2 ≤ (segs.get ⟨m + 1, hm⟩).1 :=
        (List.chain'_iff_get.mp hc) m (by omega)
      have h3 : (segs.get ⟨m + 1, hm⟩).1 ≤ (segs.get ⟨m + 1, hm⟩).2 :=
        hb _ (List.get_mem _ _ _)
      linarith

theorem zip_consecutive_pairwise (segs : List (ℚ × ℚ))
    (hb : ∀ p ∈ segs, p.1 ≤ p.2)
    (hc : List.Chain' (fun a b => a.2 ≤ b.1) segs) :
    List.Pairwise (fun a b : (ℚ × ℚ) × (ℚ × ℚ) => a.2.1 ≤ b.1.2)
      (segs.zip segs.tail) := by
  rw [List.pairwise_iff_get]
  intro i j hij
  have hj := j.isLt
  have hlen := List.length_zip segs segs.tail
  have hlen2 := List.length_tail segs
  have hij' : (i : ℕ) < (j : ℕ) := hij
  rw [List.get_zip, List.get_zip, List.get_tail]
  apply segs_start_le_end segs hb hc
  omega

/-- C5 (amended): for sorted, non-overlapping speech segments, a pause is
emitted exactly for each consecutive pair whose gap `next.start - prev.end`
reaches the threshold; each emitted pause stores the pair's boundary values
and gap rounded to 3 decimal places (so its duration is within 0.0005 of
the true gap and is at least `threshold - 0.0005`, while the true gap is at
least the threshold); and the pauses are chronologically ordered. -/
theorem long_pauses_characterization (segs : List (ℚ × ℚ)) (thr total : ℚ)
    (hb : ∀ p ∈ segs, p.1 ≤ p.2)
    (hc : List.Chain' (fun a b => a.2 ≤ b.1) segs) :
    ((longPausesFromSegments segs thr total).1.length =
      ((segs.zip segs.tail).filter
        (fun pq => decide (pq.2.1 - pq.1.2 ≥ thr))).length) ∧
    (∀ pq ∈ segs.zip segs.tail, pq.2.1 - pq.1.2 ≥ thr →
      (⟨roundTo 3 pq.1.2, roundTo 3 pq.2.1, roundTo 3 (pq.2.1 - pq.1.2)⟩ : Pause) ∈
        (longPausesFromSegments segs thr total).1) ∧
    (∀ p ∈ (longPausesFromSegments segs thr total).1, thr - 1/2000 ≤ p.dur) ∧
    List.Pairwise (fun p q : Pause => p.end_ ≤ q.start)
      (longPausesFromSegments segs thr total).1 := by
  simp only [longPausesFromSegments]
  refine ⟨?_, ?_, ?_, ?_⟩
  · exact filterMap_ite_length _
      (fun pq : (ℚ × ℚ) × (ℚ × ℚ) => pq.2.1 - pq.1.2 ≥ thr) _
  · intro pq hpq hthr
    exact List.mem_filterMap.mpr ⟨pq, hpq, by rw [if_pos hthr]⟩
  · intro p hp
    obtain ⟨pq, _, hfp⟩ := List.mem_filterMap.mp hp
    by_cases hcond : pq.2.1 - pq.1.2 ≥ thr
    · rw [if_pos hcond] at hfp
      obtain rfl := (Option.some_injective _ hfp).symm
      have h1 := le_roundTo 3 (pq.2.1 - pq.1.2)
      have h2 : (1 : ℚ) / (2 * 10 ^ 3) = 1/2000 := by norm_num
      rw [h2] at h1
      simp only
      linarith
    · rw [if_neg hcond] at hfp
      exact absurd hfp (Option.some_ne_none _).symm
  · apply List.Pairwise.filterMap
      (S := fun p q : Pause => p.end_ ≤ q.start)
    · intro a b hab pa hpa pb hpb
      by_cases ha : a.2.1 - a.1.2 ≥ thr
      · by_cases hbb : b.2.1 - b.1.2 ≥ thr
        · rw [if_pos ha] at hpa
          rw [if_pos hbb] at hpb
          obtain rfl := (Option.mem_some_iff.mp hpa)
          obtain rfl := (Option.mem_some_iff.mp hpb)
          exact roundTo_mono 3 hab
        · rw [if_neg hbb] at hpb
          exact absurd hpb (by simp)
      · rw [if_neg ha] at hpa
        exact absurd hpa (by simp)
    · exact zip_consecutive_pairwise segs hb hc

theorem long_pauses_characterization_witness :
    (∀ p ∈ (longPausesFromSegments [((0 : ℚ), 1), (5, 6)] 4 6).1,
      (4 : ℚ) - 1/2000 ≤ p.dur) ∧
    List.Pairwise (fun p q : Pause => p.end_ ≤ q.start)
      (longPausesFromSegments [((0 : ℚ), 1), (5, 6)] 4 6).1 :=
  ⟨(long_pauses_characterization [((0 : ℚ), 1), (5, 6)] 4 6
      (by intro p hp
          simp only [List.mem_cons, List.not_mem_nil, or_false] at hp
          rcases hp with rfl | rfl <;> norm_num)
      (by simp only [List.chain'_cons, List.chain'_singleton, and_true]; norm_num)).2.2.1,
   (long_pauses_characterization [((0 : ℚ), 1), (5, 6)] 4 6
      (by intro p hp
          simp only [List.mem_cons, List.not_mem_nil, or_false] at hp
          rcases hp with rfl | rfl <;> norm_num)
      (by simp only [List.chain'_cons, List.chain'_singleton, and_true]; norm_num)).2.2.2⟩

/-- C5 (counterexample): with threshold 4.0004 s and segments
`[(0, 0), (4.0004, 5)]` the gap 4.0004 qualifies, but the emitted pause is
`{start: 0.0, end: 4.0, dur: 4.0}` — its stored duration 4.0 is strictly
below the threshold and differs from the true gap, refuting both
`duration_sec ≥ threshold` and exact equality with the input boundaries. -/
theorem long_pause_rounded_below_threshold :
    (longPausesFromSegments [((0 : ℚ), 0), (10001/2500, 5)] (10001/2500) 5).1 =
      [⟨0, 4, 4⟩] ∧ (4 : ℚ) < 10001/2500 := by
  constructor
  · simp only [longPausesFromSegments, List.tail_cons, List.zip_cons_cons,
      List.zip_nil_right, List.filterMap_cons, List.filterMap_nil]
    rw [if_pos (by norm_num)]
    norm_num [roundTo, pyRound, Pause.mk.injEq]
  · norm_num

theorem filterMap_ite_none_length {α β : Type} (l : List α) (c : α → Prop)
    [DecidablePred c] (g : α → β) :
    (l.filterMap (fun a => if c a then none else some (g a))).length =
      (l.filter (fun a => !decide (c a))).length := by
  induction l with
  | nil => rfl
  | cons a t ih =>
    by_cases h : c a
    · simp [List.filterMap_cons, List.filter_cons, h, ih]
    · simp [List.filterMap_cons, List.filter_cons, h, ih]

theorem length_filter_add_length_filter_not {α : Type} (l : List α)
    (p : α → Bool) :
    (l.filter p).length + (l.filter (fun a => !p a)).length = l.length := by
  induction l with
  | nil => rfl
  | cons a t ih =>
    cases h : p a <;> simp [List.filter_cons, h, Nat.succ_eq_add_one] <;> omega

theorem length_filter_mono {α : Type} (l : List α) (p q : α → Bool)
    (h : ∀ a ∈ l, p a = true → q a = true) :
    (l.filter p).length ≤ (l.filter q).length := by
  induction l with
  | nil => exact le_refl 0
  | cons a t ih =>
    have ih' := ih (fun x hx => h x (List.mem_cons_of_mem a hx))
    cases hp : p a
    · cases hq : q a <;> simp [List.filter_cons, hp, hq] <;> omega
    · have hq := h a (List.mem_cons_self a t) hp
      simp [List.filter_cons, hp, hq]
      omega

theorem range_filterMap_ite_mem {β : Type} (n : ℕ) (c : ℕ → Prop)
    [DecidablePred c] (g : ℕ → β) (idx : β → ℕ) (hidx : ∀ i, idx (g i) = i)
    (i : ℕ) (hi : i < n) :
    (∃ m ∈ (List.range n).filterMap
      (fun k => if c k then some (g k) else none), idx m = i) ↔ c i := by
  constructor
  · rintro ⟨m, hm, hmi⟩
    obtain ⟨a, _, hfa⟩ := List.mem_filterMap.mp hm
    by_cases hca : c a
    · rw [if_pos hca] at hfa
      obtain rfl := Option.some_injective _ hfa
      rw [hidx a] at hmi
      rwa [← hmi]
    · rw [if_neg hca] at hfa
      exact absurd hfa (Option.noConfusion)
  · intro hci
    exact ⟨g i,
      List.mem_filterMap.mpr ⟨i, List.mem_range.mpr hi, by rw [if_pos hci]⟩,
      hidx i⟩

theorem range_filterMap_ite_none_mem {β : Type} (n : ℕ) (c : ℕ → Prop)
    [DecidablePred c] (g : ℕ → β) (idx : β → ℕ) (hidx : ∀ i, idx (g i) = i)
    (i : ℕ) (hi : i < n) :
    (∃ m ∈ (List.range n).filterMap
      (fun k => if c k then none else some (g k)), idx m = i) ↔ ¬ c i := by
  constructor
  · rintro ⟨m, hm, hmi⟩
    obtain ⟨a, _, hfa⟩ := List.mem_filterMap.mp hm
    by_cases hca : c a
    · rw [if_pos hca] at hfa
      exact absurd hfa (Option.noConfusion)
    · rw [if_neg hca] at hfa
      obtain rfl := Option.some_injective _ hfa
      rw [hidx a] at hmi
      rwa [← hmi]
  · intro hci
    exact ⟨g i,
      List.mem_filterMap.mpr ⟨i, List.mem_range.mpr hi, by rw [if_neg hci]⟩,
      hidx i⟩

theorem getD_argmax_eq_listMax (l : List ℚ) (hl : l ≠ []) :
    l.getD (argmaxIdx l) 0 = listMaxQ l := by
  induction l with
  | nil => exact absurd rfl hl
  | cons x xs ih =>
    cases xs with
    | nil => rfl
    | cons y ys =>
      simp only [argmaxIdx, listMaxQ]
      split_ifs with h
      · rw [List.getD_cons_succ, ih (by simp)]
        exact (max_eq_right (le_of_lt h)).symm
      · rw [List.getD_cons_zero]
        exact (max_eq_left (not_lt.mp h)).symm

theorem listMax_map_mono {α : Type} (l : List α) (f g : α → ℚ)
    (h : ∀ a ∈ l, f a ≤ g a) : listMaxQ (l.map f) ≤ listMaxQ (l.map g) := by
  induction l with
  | nil => exact le_refl 0
  | cons a t ih =>
    have ih' := ih (fun x hx => h x (List.mem_cons_of_mem a hx))
    have ha := h a (List.mem_cons_self a t)
    cases t with
    | nil => simpa [listMaxQ] using ha
    | cons b u =>
      simp only [List.map_cons, listMaxQ] at ih' ⊢
      exact max_le_max ha ih'

/-- C3: whenever the script and the grouped segment texts are both
non-empty and at least one script unit survives splitting, the coverage
result partitions the unit indices — every index below the unit count
appears in exactly one of the matches / missing lists, the two lengths add
up to the unit count, and the coverage percentage is
`100 × matched / total` rounded to one decimal. -/
theorem coverage_partitions_units (units segTexts : List String)
    (sims : ℕ → ℕ → ℚ) (thr : ℚ) (hu : units ≠ []) (hs : segTexts ≠ []) :
    ∃ r : CoverageResult,
      computeCoverage units segTexts sims thr = some r ∧
      r.matches_.length + r.missing.length = units.length ∧
      (∀ i < units.length,
        ((∃ m ∈ r.matches_, m.unit_idx = i) ↔ ¬ ∃ m ∈ r.missing, m.unit_idx = i)) ∧
      r.coverage =
        some (roundTo 1
          (100 * ((units.length : ℚ) - r.missing.length) / units.length)) := by
  obtain ⟨u, us, rfl⟩ := List.exists_cons_of_ne_nil hu
  obtain ⟨s, ss, rfl⟩ := List.exists_cons_of_ne_nil hs
  simp only [computeCoverage, List.isEmpty_cons, Bool.false_eq_true, if_false]
  refine ⟨_, rfl, ?_, ?_, rfl⟩
  · rw [filterMap_ite_length _ (covCondition (u :: us) (s :: ss) sims thr) _,
      filterMap_ite_none_length _ (covCondition (u :: us) (s :: ss) sims thr) _,
      length_filter_add_length_filter_not, List.length_range]
  · intro i hi
    rw [range_filterMap_ite_mem _ _ _ CovMatch.unit_idx (fun _ => rfl) i hi,
      range_filterMap_ite_none_mem _ _ _ CovMiss.unit_idx (fun _ => rfl) i hi,
      not_not]

theorem coverage_partitions_units_witness :
    ∃ r : CoverageResult,
      computeCoverage ["u"] ["s"] (fun _ _ => 0) (13/20) = some r ∧
      r.matches_.length + r.missing.length = 1 ∧
      (∀ i < 1,
        ((∃ m ∈ r.matches_, m.unit_idx = i) ↔ ¬ ∃ m ∈ r.missing, m.unit_idx = i)) ∧
      r.coverage =
        some (roundTo 1 (100 * (((1 : ℕ) : ℚ) - r.missing.length) / ((1 : ℕ) : ℚ))) :=
  coverage_partitions_units ["u"] ["s"] (fun _ _ => 0) (13/20)
    (by simp) (by simp)

/-- C4: the coverage percentage is monotone in the similarity matrix —
raising one unit-to-segment entry while keeping every other entry (and the
thresholds) fixed never decreases the resulting coverage percentage. -/
theorem coverage_monotone_in_similarity (units segTexts : List String)
    (sims sims' : ℕ → ℕ → ℚ) (thr : ℚ) (i0 j0 : ℕ)
    (hu : units ≠ []) (hs : segTexts ≠ [])
    (hother : ∀ i j, ¬(i = i0 ∧ j = j0) → sims i j = sims' i j)
    (hup : sims i0 j0 ≤ sims' i0 j0) :
    ∃ r r' : CoverageResult,
      computeCoverage units segTexts sims thr = some r ∧
      computeCoverage units segTexts sims' thr = some r' ∧
      ∃ cv cv' : ℚ, r.coverage = some cv ∧ r'.coverage = some cv' ∧ cv ≤ cv' := by
  obtain ⟨u, us, rfl⟩ := List.exists_cons_of_ne_nil hu
  obtain ⟨s, ss, rfl⟩ := List.exists_cons_of_ne_nil hs
  have hscore : ∀ i, covScoreOf (s :: ss) sims i ≤ covScoreOf (s :: ss) sims' i := by
    intro i
    have hne : simRow sims (s :: ss).length i ≠ [] := by
      simp [simRow, List.range_eq_nil]
    have hne' : simRow sims' (s :: ss).length i ≠ [] := by
      simp [simRow, List.range_eq_nil]
    simp only [covScoreOf]
    rw [getD_argmax_eq_listMax _ hne, getD_argmax_eq_listMax _ hne']
    apply listMax_map_mono
    intro j _
    by_cases hij : i = i0 ∧ j = j0
    · obtain ⟨rfl, rfl⟩ := hij
      exact hup
    · exact le_of_eq (hother i j hij)
  have hcond : ∀ i, covCondition (u :: us) (s :: ss) sims thr i →
      covCondition (u :: us) (s :: ss) sims' thr i := by
    intro i hc
    exact le_trans hc (hscore i)
  simp only [computeCoverage, List.isEmpty_cons, Bool.false_eq_true, if_false]
  refine ⟨_, _, rfl, rfl, _, _, rfl, rfl, ?_⟩
  apply roundTo_mono
  have hmiss :
      ((List.range (u :: us).length).filterMap (fun i =>
        if covCondition (u :: us) (s :: ss) sims' thr i then none
        else some (covMissOf (u :: us) (s :: ss) sims' i))).length ≤
      ((List.range (u :: us).length).filterMap (fun i =>
        if covCondition (u :: us) (s :: ss) sims thr i then none
        else some (covMissOf (u :: us) (s :: ss) sims i))).length := by
    rw [filterMap_ite_none_length _ (covCondition (u :: us) (s :: ss) sims' thr) _,
      filterMap_ite_none_length _ (covCondition (u :: us) (s :: ss) sims thr) _]
    apply length_filter_mono
    intro a _ hpa
    simp only [Bool.not_eq_eq_eq_not, Bool.not_true, decide_eq_false_iff_not] at hpa ⊢
    exact fun hc => hpa (hcond a hc)
  have hn : (0 : ℚ) < ((u :: us).length : ℚ) := by
    simp only [List.length_cons]
    positivity
  rw [div_le_div_iff hn hn]
  have hm : ((((List.range (u :: us).length).filterMap (fun i =>
      if covCondition (u :: us) (s :: ss) sims' thr i then none
      else some (covMissOf (u :: us) (s :: ss) sims' i))).length : ℚ)) ≤
      (((List.range (u :: us).length).filterMap (fun i =>
        if covCondition (u :: us) (s :: ss) sims thr i then none
        else some (covMissOf (u :: us) (s :: ss) sims i))).length : ℚ) := by
    exact_mod_cast hmiss
  nlinarith

theorem coverage_monotone_in_similarity_witness :
    ∃ r r' : CoverageResult,
      computeCoverage ["u"] ["s"] (fun _ _ => 0) (13/20) = some r ∧
      computeCoverage ["u"] ["s"] (fun _ _ => 0) (13/20) = some r' ∧
      ∃ cv cv' : ℚ, r.coverage = some cv ∧ r'.coverage = some cv' ∧ cv ≤ cv' :=
  coverage_monotone_in_similarity ["u"] ["s"] (fun _ _ => 0) (fun _ _ => 0)
    (13/20) 0 0 (by simp) (by simp) (fun _ _ _ => rfl) (le_refl 0)

theorem spaceJoin_cons_ne (a : String) (l : List String) (h : l ≠ []) :
    spaceJoin (a :: l) = a ++ " " ++ spaceJoin l := by
  cases l with
  | nil => exact absurd rfl h
  | cons b t => rfl

theorem spaceJoin_append (xs ys : List String) (hx : xs ≠ []) (hy : ys ≠ []) :
    spaceJoin (xs ++ ys) = spaceJoin xs ++ " " ++ spaceJoin ys := by
  induction xs with
  | nil => exact absurd rfl hx
  | cons a t ih =>
    cases t with
    | nil =>
      rw [List.singleton_append, spaceJoin_cons_ne a ys hy]
      rfl
    | cons b u =>
      rw [List.cons_append, spaceJoin_cons_ne a ((b :: u) ++ ys) (by simp),
        spaceJoin_cons_ne a (b :: u) (by simp), ih (by simp)]
      simp [String.append_assoc]

theorem groupLoop_out_prefix (ms : ℚ) (mw : ℕ) :
    ∀ (rest : List Seg) (out buf : List String) (ws : Option ℚ),
      groupLoop ms mw rest out buf ws = out ++ groupLoop ms mw rest [] buf ws := by
  intro rest
  induction rest with
  | nil =>
    intro out buf ws
    simp [groupLoop]
  | cons s rest ih =>
    intro out buf ws
    simp only [groupLoop]
    split_ifs with h hb
    · exact ih out _ _
    · rw [List.append_nil, List.nil_append]
      exact ih out _ _
    · rw [List.nil_append, ih (out ++ [spaceJoin buf]), ih [spaceJoin buf]]
      simp [List.append_assoc]

theorem groupLoop_ne_nil (ms : ℚ) (mw : ℕ) :
    ∀ (rest : List Seg) (buf : List String) (ws : Option ℚ), buf ≠ [] →
      groupLoop ms mw rest [] buf ws ≠ [] := by
  intro rest
  induction rest with
  | nil =>
    intro buf ws hb
    simp [groupLoop, List.isEmpty_eq_true, hb]
  | cons s rest ih =>
    intro buf ws hb
    simp only [groupLoop]
    split_ifs with h hb2
    · exact ih _ _ (by simp)
    · cases buf with
      | nil => exact absurd rfl hb
      | cons a t => simp at hb2
    · rw [List.nil_append, groupLoop_out_prefix]
      simp

theorem groupLoop_join (ms : ℚ) (mw : ℕ) :
    ∀ (rest : List Seg) (buf : List String) (ws : Option ℚ),
      spaceJoin (groupLoop ms mw rest [] buf ws) =
        spaceJoin (buf ++ rest.map (fun s => pyStrip s.text)) := by
  intro rest
  induction rest with
  | nil =>
    intro buf ws
    cases buf with
    | nil => rfl
    | cons a t =>
      simp only [groupLoop, List.nil_append, List.isEmpty_cons,
        Bool.false_eq_true, if_false, List.map_nil, List.append_nil]
      rfl
  | cons s rest ih =>
    intro buf ws
    simp only [groupLoop]
    split_ifs with h hb2
    · rw [ih (buf ++ [pyStrip s.text])]
      simp [List.append_assoc]
    · obtain rfl : buf = [] := by
        cases buf with
        | nil => rfl
        | cons a t => simp at hb2
      simp only [List.nil_append]
      rw [ih [pyStrip s.text]]
      rfl
    · have hb : buf ≠ [] := by
        intro hc
        subst hc
        simp at hb2
      rw [List.nil_append, groupLoop_out_prefix]
      rw [spaceJoin_append [spaceJoin buf] _ (by simp)
        (groupLoop_ne_nil ms mw rest [pyStrip s.text] _ (by simp))]
      rw [ih [pyStrip s.text]]
      simp only [List.singleton_append, List.map_cons]
      have hsj : spaceJoin [spaceJoin buf] = spaceJoin buf := rfl
      rw [hsj,
        ← spaceJoin_append buf (pyStrip s.text :: rest.map (fun s => pyStrip s.text))
          hb (by simp)]

theorem spaceJoin_ne_empty :
    ∀ (l : List String), l ≠ [] → (∀ t ∈ l, t ≠ "") → spaceJoin l ≠ "" := by
  intro l
  induction l with
  | nil => intro h; exact absurd rfl h
  | cons a t ih =>
    intro _ hall
    cases t with
    | nil => exact hall a (List.mem_singleton.mpr rfl)
    | cons b u =>
      intro hcontra
      have hd := congrArg String.data hcontra
      rw [spaceJoin_cons_ne a (b :: u) (by simp)] at hd
      simp only [String.data_append] at hd
      exact absurd hd (by simp)

theorem groupLoop_all_ne (ms : ℚ) (mw : ℕ) :
    ∀ (rest : List Seg) (buf : List String) (ws : Option ℚ),
      (∀ s ∈ rest, pyStrip s.text ≠ "") → (∀ t ∈ buf, t ≠ "") →
      ∀ g ∈ groupLoop ms mw rest [] buf ws, g ≠ "" := by
  intro rest
  induction rest with
  | nil =>
    intro buf ws _ hbuf g hg
    by_cases hb : buf = []
    · subst hb
      simp [groupLoop] at hg
    · rw [groupLoop, List.nil_append,
        if_neg (by simpa [List.isEmpty_eq_true] using hb)] at hg
      rw [List.mem_singleton.mp hg]
      exact spaceJoin_ne_empty buf hb hbuf
  | cons s rest ih =>
    intro buf ws hrest hbuf g hg
    have hs := hrest s (List.mem_cons_self s rest)
    have hrest' : ∀ x ∈ rest, pyStrip x.text ≠ "" :=
      fun x hx => hrest x (List.mem_cons_of_mem s hx)
    rw [groupLoop] at hg
    split_ifs at hg with h hb2
    · refine ih (buf ++ [pyStrip s.text]) _ hrest' ?_ g hg
      intro t ht
      rcases List.mem_append.mp ht with ht' | ht'
      · exact hbuf t ht'
      · rw [List.mem_singleton.mp ht']
        exact hs
    · exact ih [pyStrip s.text] _ hrest'
        (fun t ht => by rw [List.mem_singleton.mp ht]; exact hs) g hg
    · have hb : buf ≠ [] := by
        intro hc
        subst hc
        simp at hb2
      rw [List.nil_append, groupLoop_out_prefix] at hg
      rcases List.mem_append.mp hg with hg' | hg'
      · rw [List.mem_singleton.mp hg']
        exact spaceJoin_ne_empty buf hb hbuf
      · exact ih [pyStrip s.text] _ hrest'
          (fun t ht => by rw [List.mem_singleton.mp ht]; exact hs) g hg'

/-- C10 (amended): the spoken-segment grouper loses no text — joining the
produced groups with single spaces reproduces exactly the space-joined
stripped segment texts, in order, for EVERY segment list — and a single
segment always forms its own group, even when it alone exceeds the
max-seconds or max-words budget; provided every segment's stripped text is
non-empty, no emitted group is empty (a segment whose text strips to the
empty string does produce an empty group, see the counterexample). -/
theorem grouper_preserves_text (segs segs2 : List Seg) (ms : ℚ) (mw : ℕ)
    (s0 : Seg) (hne : ∀ s ∈ segs2, pyStrip s.text ≠ "") :
    spaceJoin (groupSegmentTexts segs ms mw) =
      spaceJoin (segs.map (fun s => pyStrip s.text)) ∧
    (∀ g ∈ groupSegmentTexts segs2 ms mw, g ≠ "") ∧
    groupSegmentTexts [s0] ms mw = [pyStrip s0.text] := by
  refine ⟨?_, ?_, ?_⟩
  · rw [groupSegmentTexts, groupLoop_join]
    rfl
  · exact groupLoop_all_ne ms mw segs2 [] none hne (by simp)
  · rw [groupSegmentTexts, groupLoop]
    split_ifs with h hb
    · rfl
    · rfl
    · simp at hb

theorem grouper_preserves_text_witness :
    spaceJoin (groupSegmentTexts [⟨0, 5, "a"⟩, ⟨5, 20, "b"⟩] 12 60) =
      spaceJoin ([⟨0, 5, "a"⟩, ⟨5, 20, "b"⟩].map (fun s : Seg => pyStrip s.text)) ∧
    (∀ g ∈ groupSegmentTexts [⟨0, 5, "a"⟩, ⟨5, 20, "b"⟩] 12 60, g ≠ "") ∧
    groupSegmentTexts [⟨0, 25, "big"⟩] 12 60 = [pyStrip "big"] :=
  grouper_preserves_text [⟨0, 5, "a"⟩, ⟨5, 20, "b"⟩]
    [⟨0, 5, "a"⟩, ⟨5, 20, "b"⟩] 12 60 ⟨0, 25, "big"⟩
    (by intro s hs
        simp only [List.mem_cons, List.not_mem_nil, or_false] at hs
        rcases hs with rfl | rfl <;> decide)

/-- C10 (counterexample): a single segment whose text is a lone blank
strips to the empty string, and the grouper emits the empty group `""` for
it — refuting the claim that no empty group is ever emitted. -/
theorem empty_group_from_blank_segment :
    groupSegmentTexts [⟨0, 1, " "⟩] 12 60 = [""] := by
  have hstrip : pyStrip " " = "" := by decide
  rw [groupSegmentTexts, groupLoop]
  split_ifs with h hb
  · rw [groupLoop]
    simp [hstrip, spaceJoin]
  · rw [groupLoop]
    simp [hstrip, spaceJoin]
  · simp at hb

theorem buildPositions_idx_lt :
    ∀ (ts : List String) (i0 acc : ℕ), ∀ pr ∈ buildPositions ts i0 acc,
      pr.2 < i0 + ts.length := by
  intro ts
  induction ts with
  | nil => intro i0 acc pr hpr; simp [buildPositions] at hpr
  | cons t ts ih =>
    intro i0 acc pr hpr
    rw [buildPositions] at hpr
    split_ifs at hpr with ht
    · have := ih (i0 + 1) acc pr hpr
      simp only [List.length_cons]
      omega
    · rcases List.mem_cons.mp hpr with rfl | hpr'
      · simp only [List.length_cons]
        omega
      · have := ih (i0 + 1) _ pr hpr'
        simp only [List.length_cons]
        omega

theorem buildPositions_acc_le :
    ∀ (ts : List String) (i0 acc : ℕ), ∀ pr ∈ buildPositions ts i0 acc,
      acc ≤ pr.1 := by
  intro ts
  induction ts with
  | nil => intro i0 acc pr hpr; simp [buildPositions] at hpr
  | cons t ts ih =>
    intro i0 acc pr hpr
    rw [buildPositions] at hpr
    split_ifs at hpr with ht
    · exact ih (i0 + 1) acc pr hpr
    · rcases List.mem_cons.mp hpr with rfl | hpr'
      · exact le_refl _
      · have := ih (i0 + 1) _ pr hpr'
        omega

theorem buildPositions_chain :
    ∀ (ts : List String) (i0 acc : ℕ),
      List.Chain' (fun a b : ℕ × ℕ => a.1 < b.1) (buildPositions ts i0 acc) := by
  intro ts
  induction ts with
  | nil => intro i0 acc; simp [buildPositions]
  | cons t ts ih =>
    intro i0 acc
    rw [buildPositions]
    split_ifs with ht
    · exact ih (i0 + 1) acc
    · rw [List.chain'_cons']
      refine ⟨?_, ih (i0 + 1) _⟩
      intro y hy
      have hmem : y ∈ buildPositions ts (i0 + 1) (acc + t.length + 1) :=
        List.mem_of_mem_head? hy
      have := buildPositions_acc_le ts (i0 + 1) (acc + t.length + 1) y hmem
      simp only
      omega

theorem chain_lt_all :
    ∀ (x : ℕ × ℕ) (l : List (ℕ × ℕ)),
      List.Chain' (fun a b : ℕ × ℕ => a.1 < b.1) (x :: l) →
      ∀ q ∈ l, x.1 < q.1 := by
  intro x l
  induction l generalizing x with
  | nil => intro _ q hq; simp at hq
  | cons y l ih =>
    intro hc q hq
    have h1 : x.1 < y.1 := (List.chain'_cons.mp hc).1
    rcases List.mem_cons.mp hq with rfl | hq'
    · exact h1
    · exact lt_trans h1 (ih y (List.chain'_cons.mp hc).2 q hq')

theorem ctti_eq_floorLookup :
    ∀ (ps : List (ℕ × ℕ)) (p prev : ℕ),
      List.Chain' (fun a b : ℕ × ℕ => a.1 < b.1) ps →
      ctti ps p prev =
        (((ps.filter (fun q => q.1 ≤ p)).getLast?).map (·.2)).getD prev := by
  intro ps
  induction ps with
  | nil => intro p prev _; rfl
  | cons a rest ih =>
    intro p prev hc
    have hctail : List.Chain' (fun a b : ℕ × ℕ => a.1 < b.1) rest :=
      (List.chain'_cons'.mp hc).2
    obtain ⟨av, ai⟩ := a
    by_cases ha : av ≤ p
    · rw [ctti, if_pos ha, ih p ai hctail, List.filter_cons,
        if_pos (by simpa using ha)]
      cases hfr : rest.filter (fun q => q.1 ≤ p) with
      | nil => simp
      | cons q qs =>
        rw [List.getLast?_cons_cons]
        obtain ⟨x, hx⟩ :=
          Option.isSome_iff_exists.mp (List.getLast?_isSome.mpr
            (List.cons_ne_nil q qs))
        rw [hx]
        simp
    · rw [ctti, if_neg ha, List.filter_cons, if_neg (by simpa using ha)]
      have hnone : rest.filter (fun q => q.1 ≤ p) = [] := by
        rw [List.filter_eq_nil_iff]
        intro q hq
        have := chain_lt_all (av, ai) rest hc q hq
        simp only at this
        simp only [decide_eq_true_eq]
        omega
      rw [hnone]
      rfl

theorem ctti_lt (n : ℕ) :
    ∀ (ps : List (ℕ × ℕ)) (p prev : ℕ), (∀ pr ∈ ps, pr.2 < n) → prev < n →
      ctti ps p prev < n := by
  intro ps
  induction ps with
  | nil => intro p prev _ hprev; exact hprev
  | cons a rest ih =>
    intro p prev hall hprev
    obtain ⟨av, ai⟩ := a
    rw [ctti]
    split_ifs with ha
    · exact ih p ai (fun pr hpr => hall pr (List.mem_cons_of_mem _ hpr))
        (hall (av, ai) (List.mem_cons_self _ _))
    · exact hprev

/-- C1 (amended): for every non-empty word list and every match span, the
emitted occurrence's indices are valid word indices, so both timestamps are
real word timestamps; the start index is the floor lookup (last recorded
offset ≤ start offset) and the start timestamp that word's start, but the
END index is the floor lookup of the end offset PLUS ONE, clamped to the
last valid word — the end timestamp is the end of the word AFTER the last
matched word whenever the clamp does not bind (see the counterexample). -/
theorem pattern_occurrence_real_timestamps (words : List Word')
    (hw : words ≠ []) (ms me : ℕ) (mtext : String) :
    floorLookupSpec (positionsOf words) ms < words.length ∧
    min (floorLookupSpec (positionsOf words) me + 1) (words.length - 1) <
      words.length ∧
    occurrenceOfMatch words (positionsOf words) ms me mtext =
      ⟨roundTo 3 ((words.getD (floorLookupSpec (positionsOf words) ms)
          ⟨"", 0, 0⟩).start),
        roundTo 3 ((words.getD (min (floorLookupSpec (positionsOf words) me + 1)
          (words.length - 1)) ⟨"", 0, 0⟩).end_),
        mtext⟩ := by
  have hn : 0 < words.length := List.length_pos.mpr hw
  have hchain := buildPositions_chain (wordsTokens words) 0 0
  have hfloor : ∀ p, charToTokenIdx (positionsOf words) p =
      floorLookupSpec (positionsOf words) p := by
    intro p
    rw [charToTokenIdx, positionsOf, ctti_eq_floorLookup _ _ _ hchain]
    rfl
  have hflt : ∀ p, floorLookupSpec (positionsOf words) p < words.length := by
    intro p
    rw [← hfloor p, charToTokenIdx, positionsOf]
    apply ctti_lt
    · intro pr hpr
      have := buildPositions_idx_lt (wordsTokens words) 0 0 pr hpr
      rwa [Nat.zero_add, wordsTokens, List.length_map] at this
    · exact hn
  have hie : words.isEmpty = false := by
    cases words with
    | nil => exact absurd rfl hw
    | cons a t => rfl
  refine ⟨hflt ms, by omega, ?_⟩
  simp only [occurrenceOfMatch, hie, Bool.false_eq_true, if_false, hfloor]

theorem pattern_occurrence_real_timestamps_witness :
    floorLookupSpec (positionsOf [⟨"Ну", 1/2, 1⟩, ⟨"вот", 5, 6⟩]) 0 <
      [(⟨"Ну", 1/2, 1⟩ : Word'), ⟨"вот", 5, 6⟩].length ∧
    min (floorLookupSpec (positionsOf [⟨"Ну", 1/2, 1⟩, ⟨"вот", 5, 6⟩]) 2 + 1)
      ([(⟨"Ну", 1/2, 1⟩ : Word'), ⟨"вот", 5, 6⟩].length - 1) <
      [(⟨"Ну", 1/2, 1⟩ : Word'), ⟨"вот", 5, 6⟩].length ∧
    occurrenceOfMatch [⟨"Ну", 1/2, 1⟩, ⟨"вот", 5, 6⟩]
        (positionsOf [⟨"Ну", 1/2, 1⟩, ⟨"вот", 5, 6⟩]) 0 2 "ну" =
      ⟨roundTo 3 (([(⟨"Ну", 1/2, 1⟩ : Word'), ⟨"вот", 5, 6⟩].getD
          (floorLookupSpec (positionsOf [⟨"Ну", 1/2, 1⟩, ⟨"вот", 5, 6⟩]) 0)
          ⟨"", 0, 0⟩).start),
        roundTo 3 (([(⟨"Ну", 1/2, 1⟩ : Word'), ⟨"вот", 5, 6⟩].getD
          (min (floorLookupSpec (positionsOf [⟨"Ну", 1/2, 1⟩, ⟨"вот", 5, 6⟩]) 2 + 1)
            ([(⟨"Ну", 1/2, 1⟩ : Word'), ⟨"вот", 5, 6⟩].length - 1))
          ⟨"", 0, 0⟩).end_),
        "ну"⟩ :=
  pattern_occurrence_real_timestamps [⟨"Ну", 1/2, 1⟩, ⟨"вот", 5, 6⟩]
    (by simp) 0 2 "ну"

/-- C1 (counterexample): take the two transcribed words `Ну` (0.5 s – 1 s)
and `вот` (5 s – 6 s) and the catalogue filler pattern `ну`.  Its single
match spans characters [0, 2) of the normalized joined string `ну вот`, so
the floor-lookup end index of the claim is word 0 and the claimed end
timestamp `round(words[0].end, 3) = 1.0`; the code, however, emits the
occurrence `{start: 0.5, end: 6.0}`, whose end timestamp is word 1's end —
the word after the match. -/
theorem pattern_end_timestamp_not_floor :
    (findPatternsLit [⟨"Ну", 1/2, 1⟩, ⟨"вот", 5, 6⟩] ["ну"]).1 =
      [⟨"ну", 1, [⟨1/2, 6, "ну"⟩]⟩] ∧
    min (floorLookupSpec (positionsOf [⟨"Ну", 1/2, 1⟩, ⟨"вот", 5, 6⟩]) 2)
      ([(⟨"Ну", 1/2, 1⟩ : Word'), ⟨"вот", 5, 6⟩].length - 1) = 0 ∧
    roundTo 3 (([(⟨"Ну", 1/2, 1⟩ : Word'), ⟨"вот", 5, 6⟩].getD 0
      ⟨"", 0, 0⟩).end_) = 1 ∧
    (6 : ℚ) ≠ 1 := by
  have htok : joinedText [⟨"Ну", 1/2, 1⟩, ⟨"вот", 5, 6⟩] = "ну вот" := by decide
  have hpos : positionsOf [⟨"Ну", 1/2, 1⟩, ⟨"вот", 5, 6⟩] = [(0, 0), (3, 1)] := by
    decide
  have hmatches : boundedLiteralMatches "ну" "ну вот" = [(0, 2)] := by decide
  have hslice : sliceStr "ну вот" 0 2 = "ну" := by decide
  have hct0 : charToTokenIdx [(0, 0), (3, 1)] 0 = 0 := by decide
  have hct2 : charToTokenIdx [(0, 0), (3, 1)] 2 = 0 := by decide
  have hocc : occurrenceOfMatch [⟨"Ну", 1/2, 1⟩, ⟨"вот", 5, 6⟩]
      [(0, 0), (3, 1)] 0 2 "ну" = ⟨1/2, 6, "ну"⟩ := by
    simp only [occurrenceOfMatch, hct0, hct2, List.isEmpty_cons,
      Bool.false_eq_true, if_false, List.length_cons, List.length_nil]
    norm_num [List.getD_cons_zero, List.getD_cons_succ, Occurrence.mk.injEq,
      roundTo, pyRound]
  refine ⟨?_, by decide, ?_, by norm_num⟩
  · simp only [findPatternsLit, htok, hpos, hmatches, hslice,
      List.filterMap_cons, List.filterMap_nil, List.isEmpty_cons,
      Bool.false_eq_true, if_false, List.map_cons, List.map_nil,
      List.length_cons, List.length_nil, hocc]
  · norm_num [List.getD_cons_zero, roundTo, pyRound]

/-- C6 (amended): the presentation formatter recomputes each per-item score
from the item's STORED (rounded) numeric values with the frontend scoring
functions, not from the statuses; for the pace item — whose status is
decided on the same already-1-decimal value the formatter reads — the
recomputed score coincides with the status-mapped score
{good: 1.0, warning: 0.75, error: 0.40}, and the speech group's value is
the 2-decimal rounding of the mean of the three recomputed scores. -/
theorem frontend_speech_value_from_stored (wpm : ℚ) (lp : List Pause)
    (dt ds : ℚ) (wt fc hcnt : ℕ) (cov : Option CoverageResult) (pl sw : ℚ)
    (mq : MicLoudItem × MicNoiseItem) (hwpm : roundTo 1 wpm = wpm) :
    calculatePaceScore
        (buildAudioChecklist wpm lp dt ds wt fc hcnt cov pl sw mq).pace.value =
      specStatusScore
        (buildAudioChecklist wpm lp dt ds wt fc hcnt cov pl sw mq).pace.status ∧
    frontendSpeechValue (buildAudioChecklist wpm lp dt ds wt fc hcnt cov pl sw mq) =
      roundTo 2 ((specStatusScore
          (buildAudioChecklist wpm lp dt ds wt fc hcnt cov pl sw mq).pace.status +
        calculateFillersScore
          (buildAudioChecklist wpm lp dt ds wt fc hcnt cov pl sw mq).fillers.per_100_words +
        calculateHedgesScore
          (buildAudioChecklist wpm lp dt ds wt fc hcnt cov pl sw mq).hedges.per_100_words) / 3) := by
  have hp : calculatePaceScore
      (buildAudioChecklist wpm lp dt ds wt fc hcnt cov pl sw mq).pace.value =
      specStatusScore
        (buildAudioChecklist wpm lp dt ds wt fc hcnt cov pl sw mq).pace.status := by
    by_cases h1 : 110 ≤ wpm ∧ wpm ≤ 140
    · simp [buildAudioChecklist, hwpm, calculatePaceScore, specStatusScore, h1]
    · by_cases h2 : 90 ≤ wpm ∧ wpm < 110
      · have hor : (90 ≤ wpm ∧ wpm < 110) ∨ (140 < wpm ∧ wpm ≤ 160) := Or.inl h2
        simp [buildAudioChecklist, hwpm, calculatePaceScore, specStatusScore,
          h1, h2, hor]
      · by_cases h3 : 140 < wpm ∧ wpm ≤ 160
        · have hor : (90 ≤ wpm ∧ wpm < 110) ∨ (140 < wpm ∧ wpm ≤ 160) :=
            Or.inr h3
          simp [buildAudioChecklist, hwpm, calculatePaceScore, specStatusScore,
            h1, h2, h3, hor]
        · have hnor : ¬((90 ≤ wpm ∧ wpm < 110) ∨ (140 < wpm ∧ wpm ≤ 160)) := by
            rintro (h | h)
            · exact h2 h
            · exact h3 h
          by_cases h4 : wpm < 90
          · simp [buildAudioChecklist, hwpm, calculatePaceScore, specStatusScore,
              h1, h2, h3, h4, hnor]
          · simp [buildAudioChecklist, hwpm, calculatePaceScore, specStatusScore,
              h1, h2, h3, h4, hnor]
  exact ⟨hp, by rw [frontendSpeechValue, hp]⟩

theorem frontend_speech_value_from_stored_witness :
    calculatePaceScore
        (buildAudioChecklist 120 [] 0 0 0 0 0 none 0 0
          (mkMicQuality none none 0 none)).pace.value =
      specStatusScore
        (buildAudioChecklist 120 [] 0 0 0 0 0 none 0 0
          (mkMicQuality none none 0 none)).pace.status ∧
    frontendSpeechValue (buildAudioChecklist 120 [] 0 0 0 0 0 none 0 0
        (mkMicQuality none none 0 none)) =
      roundTo 2 ((specStatusScore
          (buildAudioChecklist 120 [] 0 0 0 0 0 none 0 0
            (mkMicQuality none none 0 none)).pace.status +
        calculateFillersScore
          (buildAudioChecklist 120 [] 0 0 0 0 0 none 0 0
            (mkMicQuality none none 0 none)).fillers.per_100_words +
        calculateHedgesScore
          (buildAudioChecklist 120 [] 0 0 0 0 0 none 0 0
            (mkMicQuality none none 0 none)).hedges.per_100_words) / 3) :=
  frontend_speech_value_from_stored 120 [] 0 0 0 0 0 none 0 0
    (mkMicQuality none none 0 none) (by norm_num [roundTo, pyRound])

/-- C6 (counterexample): in the clipping report the mic-loudness item's
status is `error` (score 0.40 under the claim's map) while mic-noise and
timing are `good`, so the claimed status-mapped average of the technical
group is `round((0.40 + 1.0 + 1.0) / 3, 2) = 0.8`; the formatter, however,
recomputes the mic score from the stored RMS/SNR values, ignores clipping,
and produces the group value 1.0. -/
theorem frontend_group_value_ignores_status :
    clippingChecklist.mic_loudness.status = some "error" ∧
    clippingChecklist.mic_noise.status = some "good" ∧
    clippingChecklist.time_use.status = "good" ∧
    frontendTechnicalValue clippingChecklist = 1 ∧
    roundTo 2 ((specStatusScore "error" + specStatusScore "good" +
      specStatusScore "good") / 3) = 4/5 ∧
    (1 : ℚ) ≠ 4/5 := by
  refine ⟨?_, ?_, ?_, ?_, ?_, by norm_num⟩
  · norm_num [clippingChecklist, buildAudioChecklist, mkMicQuality, micLoudStatus]
  · norm_num [clippingChecklist, buildAudioChecklist, mkMicQuality, micLoudStatus]
  · norm_num [clippingChecklist, buildAudioChecklist]
  · norm_num [clippingChecklist, buildAudioChecklist, mkMicQuality, micLoudStatus,
      frontendTechnicalValue, calculateMicScore, calculateTimingScore,
      List.filterMap_cons, List.filterMap_nil, roundTo, pyRound]
  · have he : specStatusScore "error" = 2/5 := rfl
    have hg : specStatusScore "good" = 1 := rfl
    norm_num [he, hg, roundTo, pyRound]

end LightPitch
